import Mathlib

/-!
Shallow embedding of `scripts/tune_hyperparams.py` (hyperparameter tuner of the
signal-triangulation repository), together with theorems settling the spec's
claims about it.

Modelling conventions:
* Python numbers (`int`/`float` parameter values and metrics) are modelled as
  exact rationals `ℚ`; metric texts are `List Char`.
* Python's `while` loop in `ParamSpec.from_range` is modelled with explicit
  fuel: the model returns `none` when the loop has not terminated within the
  given fuel, so non-termination is expressible.
* Python exceptions are modelled with `Except PyErr`; a `try/except` block is
  a `match` on the exception constructor.
* The regular-expression search for the user-supplied metric pattern is
  abstracted as an oracle `matcher : List Char → Option ReMatch` (the result
  of `re.search(metric_regex, output)`), and `float(...)` literal parsing as
  an oracle `parse : List Char → Option ℚ`; the claims quantify over these.
  The sentinel search `re.search("No output from app for file:", output)` is
  a literal pattern with no metacharacters, hence modelled exactly as
  substring containment.
-/

namespace Tune

/-- Parameter value kinds, from `ParamSpec.param_type` ('float', 'int', 'bool'). -/
inductive PType where
  | float
  | int
  | bool
deriving DecidableEq, Repr

/-- `ParamSpec`: name, list of admissible values, kind
(`scripts/tune_hyperparams.py`, lines 62-67). Values are modelled as `ℚ`. -/
structure ParamSpec where
  name : List Char
  values : List ℚ
  param_type : PType
deriving DecidableEq, Repr

/-- Python's `round` ties-to-even rounding of a rational to an integer. -/
def pyRoundInt (q : ℚ) : ℤ :=
  let f : ℤ := ⌊q⌋
  let r : ℚ := q - f
  if r < 1/2 then f
  else if 1/2 < r then f + 1
  else if Even f then f else f + 1

/-- Python's `round(x, 6)`: round to 6 decimal places, ties to even. -/
def pyRound6 (q : ℚ) : ℚ :=
  (pyRoundInt (q * 1000000) : ℚ) / 1000000

/-- The epsilon used by `from_range`'s loop condition (`1e-9`). -/
def rangeEps : ℚ := 1 / 1000000000

/-- One included value of `from_range`'s loop body: `int(round(current))` for
kind `int`, `round(current, 6)` otherwise. -/
def roundValue (t : PType) (current : ℚ) : ℚ :=
  match t with
  | PType.int => (pyRoundInt current : ℚ)
  | _ => pyRound6 current

/-- The `while current <= end + 1e-9` loop of `ParamSpec.from_range`
(lines 82-89), with explicit fuel: `none` means the loop has not terminated
within `fuel` iterations. -/
def fromRangeAux (t : PType) (endV step : ℚ) : Nat → ℚ → List ℚ → Option (List ℚ)
  | 0, current, acc =>
      if current ≤ endV + rangeEps then none else some acc.reverse
  | fuel + 1, current, acc =>
      if current ≤ endV + rangeEps then
        fromRangeAux t endV step fuel (current + step) (roundValue t current :: acc)
      else some acc.reverse

/-- `ParamSpec.from_range(name, start, end, step, param_type)` (lines 79-90),
fuel-instrumented: `none` when the loop does not terminate within `fuel`. -/
def fromRange (name : List Char) (start endV step : ℚ) (t : PType) (fuel : Nat) :
    Option ParamSpec :=
  (fromRangeAux t endV step fuel start []).map (fun vs => ⟨name, vs, t⟩)

/-- Python exception kinds relevant to `extract_metric`: `ValueError` from
`float` on a non-numeric string, `IndexError` from `.group(1)` when the
pattern has no group 1, `TypeError` from `float(None)` when group 1 did not
participate in the match, and `re.error` from `re.search` on an invalid
pattern. -/
inductive PyErr where
  | valueError
  | indexError
  | typeError
  | reError
deriving DecidableEq, Repr

/-- The literal failure marker searched for by `extract_metric` and the search
loops: `"No output from app for file:"` (a regex with no metacharacters, so
its `re.search` is exactly substring containment). -/
def sentinel : List Char := "No output from app for file:".toList

/-- `needle` occurs as a contiguous subsequence of `haystack`. -/
def containsSeq (needle : List Char) : List Char → Bool
  | [] => needle.isEmpty
  | c :: rest => needle.isPrefixOf (c :: rest) || containsSeq needle rest

/-- `re.search(r"No output from app for file:", output)` truthiness. -/
def hasSentinel (output : List Char) : Bool := containsSeq sentinel output

/-- What `match.group(1)` can yield on a successful `re.search`: the pattern
may have no group 1 at all (`.group(1)` raises IndexError), have a group 1
that did not participate in the match (`.group(1)` returns `None`, e.g.
pattern `(a)?b` matching output `b`), or have captured text. -/
inductive Capture1 where
  | missing
  | absent
  | captured (s : List Char)
deriving DecidableEq, Repr

/-- The result of a successful `re.search(metric_regex, output)`, carrying
the state of capture group 1. -/
structure ReMatch where
  capture1 : Capture1
deriving DecidableEq, Repr

/-- `match.group(1)`: raises `IndexError` when the pattern has no group 1,
returns `None` when group 1 did not participate in the match, else the
captured text. -/
def group1 (m : ReMatch) : Except PyErr (Option (List Char)) :=
  match m.capture1 with
  | Capture1.missing => Except.error PyErr.indexError
  | Capture1.absent => Except.ok none
  | Capture1.captured s => Except.ok (some s)

/-- `float(arg)` applied to the result of `match.group(1)`: `float(None)`
raises `TypeError`; on a string it raises `ValueError` when the string is
not a numeric literal (the literal parse itself abstracted by `parse`). -/
def pyFloat (parse : List Char → Option ℚ) : Option (List Char) → Except PyErr ℚ
  | none => Except.error PyErr.typeError
  | some s =>
      match parse s with
      | some q => Except.ok q
      | none => Except.error PyErr.valueError

/-- `extract_metric(output, metric_regex)` (lines 157-174) at the exception
level. `matcherE` abstracts `re.search(metric_regex, ·)`, which raises
`re.error` for an invalid pattern — but only when it is reached: the
sentinel check returns first. The `try: return float(match.group(1))
except (ValueError, IndexError): return None` block catches exactly
`ValueError` and `IndexError`; the `TypeError` that `float(None)` raises on
a nonparticipating group 1 propagates uncaught, as does `re.error`. -/
def extractMetricE (parse : List Char → Option ℚ)
    (matcherE : List Char → Except PyErr (Option ReMatch)) (output : List Char) :
    Except PyErr (Option ℚ) :=
  if hasSentinel output then Except.ok none
  else
    match matcherE output with
    | Except.error e => Except.error e
    | Except.ok none => Except.ok none
    | Except.ok (some m) =>
        match
          (match group1 m with
           | Except.ok arg => pyFloat parse arg
           | Except.error e => Except.error e) with
        | Except.ok q => Except.ok (some q)
        | Except.error PyErr.valueError => Except.ok none
        | Except.error PyErr.indexError => Except.ok none
        | Except.error e => Except.error e

/-- The value `extract_metric` returns when it returns, for a matcher that
does not itself raise (a valid pattern). An exception escaping
`extract_metric` (the `TypeError` of a nonparticipating group 1) aborts the
enclosing search loop in the source and is caught by `main`'s blanket
`except Exception`; this search-level view records such a trial's metric as
absent — the search-level theorems only use the parameter assignments of
trials, and the exception behaviour itself is settled against
`extractMetricE`. -/
def extractMetric (parse : List Char → Option ℚ)
    (matcher : List Char → Option ReMatch) (output : List Char) : Option ℚ :=
  match extractMetricE parse (fun o => Except.ok (matcher o)) output with
  | Except.ok v => v
  | Except.error _ => none

/-- A concrete parameter assignment, as built by `dict(zip(param_names, combo))`:
an ordered association list name → value. -/
abbrev Params : Type := List (List Char × ℚ)

/-- `itertools.product(*all_values)` as a list of lists: nested-loop order,
first list outermost (slowest varying). -/
def cartProd {α : Type} : List (List α) → List (List α)
  | [] => [[]]
  | vs :: rest => vs.flatMap (fun v => (cartProd rest).map (fun c => v :: c))

/-- Python truthiness of `max_tests : Optional[int]` (`None` and `0` falsy). -/
def intTruthy : Option ℤ → Bool
  | none => false
  | some n => n != 0

/-- The combination list of `grid_search` (lines 226-231):
`all_combinations = list(itertools.product(*all_values))`, truncated by
`all_combinations[:max_tests]` only under `if max_tests and max_tests > 0`. -/
def gridCombos (space : List ParamSpec) (maxTests : Option ℤ) : List (List ℚ) :=
  let all := cartProd (space.map (fun ps => ps.values))
  if intTruthy maxTests && decide (0 < maxTests.getD 0) then
    all.take (maxTests.getD 0).toNat
  else all

/-- The parameter assignments grid_search iterates over, in execution order
(`params = dict(zip(param_names, combo))`, line 244). -/
def gridTrials (space : List ParamSpec) (maxTests : Option ℤ) : List Params :=
  (gridCombos space maxTests).map (fun combo => (space.map (fun ps => ps.name)).zip combo)

/-- The body of `grid_search`'s / `random_search`'s per-trial evaluation
(lines 254-269 / 307-328): run the command (abstracted by `oracle`, mapping
the parameter assignment to the captured output), record `(params, None)` on
the sentinel, else `(params, extract_metric(output))`. -/
def evalTrial (oracle : Params → List Char) (parse : List Char → Option ℚ)
    (matcher : List Char → Option ReMatch) (params : Params) : Params × Option ℚ :=
  let output := oracle params
  if hasSentinel output then (params, none)
  else (params, extractMetric parse matcher output)

/-- `grid_search` (lines 214-271), uninterrupted: the returned result list.
With `dry_run` the loop `continue`s before appending, so results are empty. -/
def gridSearch (space : List ParamSpec) (maxTests : Option ℤ) (dryRun : Bool)
    (oracle : Params → List Char) (parse : List Char → Option ℚ)
    (matcher : List Char → Option ReMatch) : List (Params × Option ℚ) :=
  if dryRun then []
  else (gridTrials space maxTests).map (evalTrial oracle parse matcher)

/-- `random.choice(vs)` given one random draw `r` from the generator:
Python picks a uniform index below `len(vs)`; the model reduces the draw
modulo the length. (`random.choice` on an empty sequence raises; the model's
default `0` is never reached under the claims' nonempty-domain hypotheses.) -/
def randomChoice (vs : List ℚ) (r : Nat) : ℚ := vs.getD (r % vs.length) 0

/-- One sampled assignment of `random_search` (line 297):
`{name: random.choice(space[name].values) for name in param_names}`; the
`j`-th parameter consumes the generator draw `rng (base + j)`. -/
def randomTrial (space : List ParamSpec) (rng : Nat → Nat) (base : Nat) : Params :=
  space.enum.map (fun p => (p.2.name, randomChoice p.2.values (rng (base + p.1))))

/-- `random_search` (lines 274-330), uninterrupted: one trial per loop index
`i in range(num_samples)`, each consuming `space.length` fresh generator
draws. With `dry_run` nothing is appended. -/
def randomSearch (space : List ParamSpec) (numSamples : ℤ) (dryRun : Bool)
    (oracle : Params → List Char) (parse : List Char → Option ℚ)
    (matcher : List Char → Option ReMatch) (rng : Nat → Nat) :
    List (Params × Option ℚ) :=
  if dryRun then []
  else (List.range numSamples.toNat).map (fun i =>
    evalTrial oracle parse matcher (randomTrial space rng (i * space.length)))

/-- `num_samples = args.max_tests or 100` (line 501): Python `or` takes the
right operand when the left is falsy (`None` or `0`). -/
def numSamplesOf : Option ℤ → ℤ
  | none => 100
  | some n => if n ≠ 0 then n else 100

/-- Stable insertion before the first element `y` with `lt x y`; later
elements therefore come after earlier elements with an equivalent key. -/
def insertStable {α : Type} (lt : α → α → Bool) (x : α) : List α → List α
  | [] => [x]
  | y :: ys => if lt x y then x :: y :: ys else y :: insertStable lt x ys

/-- Python's `sorted` modelled as a stable sort (insertion from the left);
`sorted` is specified to be stable, also under `reverse=True`. -/
def pySorted {α : Type} (lt : α → α → Bool) (l : List α) : List α :=
  l.foldl (fun acc x => insertStable lt x acc) []

/-- The key comparison of `sorted(valid_results, key=lambda x: x[1],
reverse=not minimize)` (line 347): ascending when minimizing, descending
otherwise. -/
def keyLT (minimize : Bool) (a b : ℚ) : Bool :=
  if minimize then decide (a < b) else decide (b < a)

/-- Python `min` over a nonempty list (`none` for the empty list, where
Python raises). -/
def pyMin : List ℚ → Option ℚ
  | [] => none
  | x :: xs => some (xs.foldl min x)

/-- Python `max` over a nonempty list. -/
def pyMax : List ℚ → Option ℚ
  | [] => none
  | x :: xs => some (xs.foldl max x)

/-- The summary statistics printed by `report_results` (lines 363-369). -/
structure Stats where
  statMin : ℚ
  statMax : ℚ
  statMean : ℚ
  statMedian : ℚ
deriving DecidableEq, Repr

/-- The observable outcome of `report_results` (lines 332-369). -/
inductive Report where
  | noValid
  | summary (best : Params × ℚ) (top : List (Params × ℚ)) (stats : Stats)

/-- `valid_results = [(p, m) for p, m in results if m is not None]`
(line 340). -/
def validOf (results : List (Params × Option ℚ)) : List (Params × ℚ) :=
  results.filterMap (fun pm => pm.2.map (fun m => (pm.1, m)))

/-- `report_results(results, minimize)` (lines 332-369): filter to trials with
a present metric; if none, the "No valid results collected." report; else the
stable sort by metric (ascending iff minimizing), best = its head, top 5, and
statistics with `median = sorted(metrics)[len(metrics)//2]`. -/
def reportResults (results : List (Params × Option ℚ)) (minimize : Bool) : Report :=
  match validOf results with
  | [] => Report.noValid
  | v :: vs =>
      let sortedResults := pySorted (fun a b => keyLT minimize a.2 b.2) (v :: vs)
      let best := sortedResults.headD ([], 0)
      let metrics := (v :: vs).map (fun t => t.2)
      let ascMetrics := pySorted (fun a b => decide (a < b)) metrics
      Report.summary best (sortedResults.take 5)
        ⟨(pyMin metrics).getD 0, (pyMax metrics).getD 0,
         metrics.sum / metrics.length,
         ascMetrics.getD (metrics.length / 2) 0⟩

/-- Python truthiness of an optional string (absent and `""` falsy). -/
def strTruthy : Option (List Char) → Bool
  | none => false
  | some s => !s.isEmpty

/-- Python dict assignment `space[name] = ps` on an insertion-ordered dict:
replace in place if the key exists, else append. -/
def dictInsert (space : List ParamSpec) (ps : ParamSpec) : List ParamSpec :=
  if space.any (fun q => q.name == ps.name) then
    space.map (fun q => if q.name == ps.name then ps else q)
  else space ++ [ps]

/-- The search-space resolution of `main` (lines 452-486): start from the
declarative file's space when `--search-space` was given (else empty), then
for each inline override whose raw argument is truthy, parse it
(`parse_param_list`, abstracted by `parseList`) and assign the resulting
spec. (`from_list`'s runtime kind inference is irrelevant here; the kind is
fixed to `float`.) -/
def buildSearchSpace (yamlSpace : Option (List ParamSpec))
    (overrides : List (List Char × Option (List Char)))
    (parseList : List Char → List ℚ) : List ParamSpec :=
  let base := match yamlSpace with
    | some l => l
    | none => []
  overrides.foldl
    (fun space nv =>
      if strTruthy nv.2 then
        dictInsert space ⟨nv.1, parseList (nv.2.getD []), PType.float⟩
      else space)
    base

/-- The two search strategies of `--search-mode`. -/
inductive SearchMode where
  | grid
  | random
deriving DecidableEq, Repr

/-- The observable outcome of `main` (lines 387-511). -/
inductive MainOutcome where
  | exitConfigError (code : ℤ)
  | completed (results : List (Params × Option ℚ)) (rep : Option Report)

/-- `main` after argument parsing (lines 452-511): resolve the search space;
`if not search_space: sys.exit(1)` before any trial; else run the selected
search and, unless `--dry-run`, report. -/
def mainModel (yamlSpace : Option (List ParamSpec))
    (overrides : List (List Char × Option (List Char)))
    (parseList : List Char → List ℚ) (mode : SearchMode) (maxTests : Option ℤ)
    (dryRun minimize : Bool) (oracle : Params → List Char)
    (parse : List Char → Option ℚ) (matcher : List Char → Option ReMatch)
    (rng : Nat → Nat) : MainOutcome :=
  let space := buildSearchSpace yamlSpace overrides parseList
  if space.isEmpty then MainOutcome.exitConfigError 1
  else
    let results :=
      match mode with
      | SearchMode.grid => gridSearch space maxTests dryRun oracle parse matcher
      | SearchMode.random =>
          randomSearch space (numSamplesOf maxTests) dryRun oracle parse matcher rng
    MainOutcome.completed results
      (if dryRun then none else some (reportResults results minimize))

/-- Helper: with `step = 0` the loop variable never moves, so no fuel makes
the `from_range` loop terminate while the entry condition holds. -/
lemma fromRangeAux_step_zero (t : PType) (endV : ℚ) :
    ∀ (fuel : Nat) (current : ℚ) (acc : List ℚ), current ≤ endV + rangeEps →
      fromRangeAux t endV 0 fuel current acc = none := by
  intro fuel
  induction fuel with
  | zero => intro current acc h; simp [fromRangeAux, h]
  | succ f ih =>
      intro current acc h
      simp only [fromRangeAux, if_pos h]
      rw [add_zero]
      exact ih current _ h

/-- C3: the spec says `ParamSpec.from_range` raises on `step == 0`; the code
has no guard and its `while current <= end + 1e-9` loop never terminates when
`step == 0` and `start ≤ end + 1e-9`. At the failing input
`from_range('x', start=1, end=5, step=0, 'int')`, no iteration bound (fuel)
suffices — the model returns `none` for every fuel, and no exception is
raised on any path of the function. -/
theorem from_range_step_zero_diverges :
    ∀ fuel : Nat, fromRange ['x'] 1 5 0 PType.int fuel = none := by
  intro fuel
  unfold fromRange
  rw [fromRangeAux_step_zero PType.int 5 fuel 1 [] (by norm_num [rangeEps])]
  rfl

/-- C2 counterexample: the claim says that (sentinel absent) a capture that
does not parse yields an absent result. For a pattern whose group 1 did not
participate in the match (e.g. `(a)?b` on output `b`), `match.group(1)` is
`None` and `float(None)` raises an uncaught `TypeError`: the call produces
no result at all, not an absent one. -/
theorem extract_metric_nonparticipating_group_counterexample :
    hasSentinel ['b'] = false
    ∧ extractMetricE (fun _ => none)
        (fun _ => Except.ok (some ⟨Capture1.absent⟩)) ['b'] =
        Except.error PyErr.typeError
    ∧ (Except.error PyErr.typeError : Except PyErr (Option ℚ)) ≠ Except.ok none :=
  ⟨by decide, rfl, by simp⟩

/-- C2 (amended): the sentinel check runs first and always wins — with the
sentinel present the result is absent (Invalid) whatever the pattern does,
the pattern not even being consulted; otherwise a match whose first capture
group captured text that parses yields that number (Ok); no match, a
pattern without a group 1 (IndexError, caught), or captured text that does
not parse (ValueError, caught) yield an absent result (NoMatch); but a
match whose group 1 did not participate raises an uncaught TypeError
(`float(None)`) instead of producing a result, and an invalid pattern
raises `re.error` at the search. -/
theorem extract_metric_branches (parse : List Char → Option ℚ)
    (matcherE : List Char → Except PyErr (Option ReMatch)) (output : List Char) :
    (hasSentinel output = true → extractMetricE parse matcherE output = Except.ok none)
    ∧ (hasSentinel output = false → matcherE output = Except.ok none →
        extractMetricE parse matcherE output = Except.ok none)
    ∧ (∀ m s q, hasSentinel output = false → matcherE output = Except.ok (some m) →
        m.capture1 = Capture1.captured s → parse s = some q →
        extractMetricE parse matcherE output = Except.ok (some q))
    ∧ (∀ m, hasSentinel output = false → matcherE output = Except.ok (some m) →
        m.capture1 = Capture1.missing →
        extractMetricE parse matcherE output = Except.ok none)
    ∧ (∀ m s, hasSentinel output = false → matcherE output = Except.ok (some m) →
        m.capture1 = Capture1.captured s → parse s = none →
        extractMetricE parse matcherE output = Except.ok none)
    ∧ (∀ m, hasSentinel output = false → matcherE output = Except.ok (some m) →
        m.capture1 = Capture1.absent →
        extractMetricE parse matcherE output = Except.error PyErr.typeError)
    ∧ (∀ e, hasSentinel output = false → matcherE output = Except.error e →
        extractMetricE parse matcherE output = Except.error e) := by
  refine ⟨fun hs => ?_, fun hs hm => ?_, fun m s q hs hm hc hp => ?_,
    fun m hs hm hc => ?_, fun m s hs hm hc hp => ?_, fun m hs hm hc => ?_,
    fun e hs hm => ?_⟩
  · simp [extractMetricE, hs]
  · simp [extractMetricE, hs, hm]
  · simp [extractMetricE, hs, hm, group1, hc, pyFloat, hp]
  · simp [extractMetricE, hs, hm, group1, hc]
  · simp [extractMetricE, hs, hm, group1, hc, pyFloat, hp]
  · simp [extractMetricE, hs, hm, group1, hc, pyFloat]
  · simp [extractMetricE, hs, hm]

/-- Witness for C2 (amended): concrete inputs exercising the sentinel-wins
branch, the successful parse branch, the unparseable-captured-text branch,
and the nonparticipating-group TypeError branch. -/
theorem extract_metric_branches_witness :
    (hasSentinel sentinel = true
      ∧ extractMetricE (fun _ => some 3)
          (fun _ => Except.ok (some ⟨Capture1.captured ['3']⟩)) sentinel = Except.ok none)
    ∧ (hasSentinel ['a'] = false
      ∧ extractMetricE (fun _ => some 3)
          (fun _ => Except.ok (some ⟨Capture1.captured ['3']⟩)) ['a'] =
          Except.ok (some 3))
    ∧ (hasSentinel ['a'] = false
      ∧ extractMetricE (fun _ => none)
          (fun _ => Except.ok (some ⟨Capture1.captured ['z']⟩)) ['a'] = Except.ok none)
    ∧ (hasSentinel ['a'] = false
      ∧ extractMetricE (fun _ => none)
          (fun _ => Except.ok (some ⟨Capture1.absent⟩)) ['a'] =
          Except.error PyErr.typeError) := by
  refine ⟨⟨by decide, ?_⟩, ⟨by decide, ?_⟩, ⟨by decide, ?_⟩, ⟨by decide, ?_⟩⟩
  · exact (extract_metric_branches (fun _ => some 3)
      (fun _ => Except.ok (some ⟨Capture1.captured ['3']⟩)) sentinel).1 (by decide)
  · exact (extract_metric_branches (fun _ => some 3)
      (fun _ => Except.ok (some ⟨Capture1.captured ['3']⟩)) ['a']).2.2.1
      ⟨Capture1.captured ['3']⟩ ['3'] 3 (by decide) rfl rfl rfl
  · exact (extract_metric_branches (fun _ => none)
      (fun _ => Except.ok (some ⟨Capture1.captured ['z']⟩)) ['a']).2.2.2.2.1
      ⟨Capture1.captured ['z']⟩ ['z'] (by decide) rfl rfl rfl
  · exact (extract_metric_branches (fun _ => none)
      (fun _ => Except.ok (some ⟨Capture1.absent⟩)) ['a']).2.2.2.2.2.1
      ⟨Capture1.absent⟩ (by decide) rfl rfl

/-- C9 counterexample: `extract_metric` is not total. A match whose group 1
did not participate makes `float(None)` raise `TypeError`, and an invalid
pattern makes `re.search` raise `re.error`; `except (ValueError,
IndexError)` catches neither, so the exception escapes — while with the
sentinel present the function returns before the pattern is ever used. -/
theorem extract_metric_raises_counterexample :
    extractMetricE (fun _ => none)
        (fun _ => Except.ok (some ⟨Capture1.absent⟩)) ['x'] =
        Except.error PyErr.typeError
    ∧ extractMetricE (fun _ => none)
        (fun _ => Except.error PyErr.reError) ['x'] = Except.error PyErr.reError
    ∧ extractMetricE (fun _ => none)
        (fun _ => Except.error PyErr.reError) sentinel = Except.ok none :=
  ⟨rfl, rfl, rfl⟩

/-- C9 (amended): `extract_metric` returns a value — never lets an exception
escape — whenever the sentinel is present, or the pattern search succeeds
and any match's group 1 is missing or captured text: the `except
(ValueError, IndexError)` clause catches exactly the exceptions those paths
raise. The two remaining paths raise uncaught: `float(None)` (`TypeError`)
on a match whose group 1 did not participate, and `re.error` from an
invalid pattern, both reachable only when the sentinel is absent. -/
theorem extract_metric_totality_boundary (parse : List Char → Option ℚ)
    (matcherE : List Char → Except PyErr (Option ReMatch)) (output : List Char) :
    (hasSentinel output = true →
      extractMetricE parse matcherE output = Except.ok none)
    ∧ (∀ mopt, matcherE output = Except.ok mopt →
        (∀ m, mopt = some m → m.capture1 ≠ Capture1.absent) →
        ∃ v : Option ℚ, extractMetricE parse matcherE output = Except.ok v)
    ∧ (hasSentinel output = false →
        ∀ m, matcherE output = Except.ok (some m) → m.capture1 = Capture1.absent →
        extractMetricE parse matcherE output = Except.error PyErr.typeError)
    ∧ (hasSentinel output = false →
        ∀ e, matcherE output = Except.error e →
        extractMetricE parse matcherE output = Except.error e) := by
  refine ⟨fun hs => by simp [extractMetricE, hs], ?_,
    fun hs m hm hc => by simp [extractMetricE, hs, hm, group1, hc, pyFloat],
    fun hs e hm => by simp [extractMetricE, hs, hm]⟩
  intro mopt hm hne
  by_cases hs : hasSentinel output
  · exact ⟨none, by simp [extractMetricE, hs]⟩
  · cases mopt with
    | none => exact ⟨none, by simp [extractMetricE, hs, hm]⟩
    | some m =>
        cases hc : m.capture1 with
        | missing => exact ⟨none, by simp [extractMetricE, hs, hm, group1, hc]⟩
        | absent => exact absurd hc (hne m rfl)
        | captured str =>
            cases hp : parse str with
            | none =>
                exact ⟨none, by simp [extractMetricE, hs, hm, group1, hc, pyFloat, hp]⟩
            | some q =>
                exact ⟨some q,
                  by simp [extractMetricE, hs, hm, group1, hc, pyFloat, hp]⟩

/-- Witness for C9 (amended): a captured group 1 (hypotheses discharged at a
concrete match) returns a value; a concrete invalid-pattern matcher
propagates `re.error`. -/
theorem extract_metric_totality_boundary_witness :
    ((∀ m : ReMatch, (some ⟨Capture1.captured ['7']⟩ : Option ReMatch) = some m →
        m.capture1 ≠ Capture1.absent)
      ∧ (∃ v : Option ℚ, extractMetricE (fun _ => some 7)
          (fun _ => Except.ok (some ⟨Capture1.captured ['7']⟩)) ['a'] = Except.ok v))
    ∧ (hasSentinel ['a'] = false
      ∧ extractMetricE (fun _ => some 7)
          (fun _ => Except.error PyErr.reError) ['a'] = Except.error PyErr.reError) := by
  constructor
  · have hok : ∀ m : ReMatch,
        (some ⟨Capture1.captured ['7']⟩ : Option ReMatch) = some m →
        m.capture1 ≠ Capture1.absent := by
      intro m hm
      cases hm
      decide
    exact ⟨hok, (extract_metric_totality_boundary (fun _ => some 7)
      (fun _ => Except.ok (some ⟨Capture1.captured ['7']⟩)) ['a']).2.1
      (some ⟨Capture1.captured ['7']⟩) rfl hok⟩
  · exact ⟨by decide, (extract_metric_totality_boundary (fun _ => some 7)
      (fun _ => Except.error PyErr.reError) ['a']).2.2.2 (by decide)
      PyErr.reError rfl⟩

/-- C10: truncation applies only for a present, strictly positive
`max_tests`: with `None` the `if max_tests and max_tests > 0` guard is falsy,
with `0` it is falsy (Python truthiness), with a negative value the second
conjunct fails — in all three cases the full Cartesian product is
enumerated; with a positive value the first `N` combinations are kept. -/
theorem grid_search_truncation_guard (space : List ParamSpec)
    (oracle : Params → List Char) (parse : List Char → Option ℚ)
    (matcher : List Char → Option ReMatch) :
    gridTrials space (some 0) = gridTrials space none
    ∧ (∀ N : ℤ, N < 0 → gridTrials space (some N) = gridTrials space none)
    ∧ (∀ N : ℤ, 0 < N →
        gridTrials space (some N) = (gridTrials space none).take N.toNat)
    ∧ gridSearch space (some 0) false oracle parse matcher =
        gridSearch space none false oracle parse matcher := by
  have h0 : gridTrials space (some 0) = gridTrials space none := by
    simp [gridTrials, gridCombos, intTruthy]
  refine ⟨h0, fun N hN => ?_, fun N hN => ?_, by simp [gridSearch, h0]⟩
  · have : ¬ (0 : ℤ) < N := not_lt.mpr hN.le
    simp [gridTrials, gridCombos, intTruthy, this]
  · have hne : (N : ℤ) ≠ 0 := hN.ne'
    simp [gridTrials, gridCombos, intTruthy, hne, hN, List.map_take]

/-- Witness for C10: a concrete two-point space; a negative limit and a zero
limit leave all four combinations, a limit of 2 keeps the first two. -/
theorem grid_search_truncation_guard_witness :
    (gridTrials [⟨['a'], [1, 2], PType.float⟩, ⟨['b'], [3, 4], PType.float⟩] (some 0) =
      gridTrials [⟨['a'], [1, 2], PType.float⟩, ⟨['b'], [3, 4], PType.float⟩] none)
    ∧ ((-3 : ℤ) < 0
      ∧ gridTrials [⟨['a'], [1, 2], PType.float⟩, ⟨['b'], [3, 4], PType.float⟩] (some (-3)) =
        gridTrials [⟨['a'], [1, 2], PType.float⟩, ⟨['b'], [3, 4], PType.float⟩] none)
    ∧ ((0 : ℤ) < 2
      ∧ gridTrials [⟨['a'], [1, 2], PType.float⟩, ⟨['b'], [3, 4], PType.float⟩] (some 2) =
        (gridTrials [⟨['a'], [1, 2], PType.float⟩, ⟨['b'], [3, 4], PType.float⟩] none).take 2) := by
  refine ⟨?_, ⟨by decide, ?_⟩, ⟨by decide, ?_⟩⟩
  · exact (grid_search_truncation_guard _ (fun _ => []) (fun _ => none) (fun _ => none)).1
  · exact (grid_search_truncation_guard _ (fun _ => []) (fun _ => none)
      (fun _ => none)).2.1 (-3) (by decide)
  · exact (grid_search_truncation_guard _ (fun _ => []) (fun _ => none)
      (fun _ => none)).2.2.1 2 (by decide)

/-- Helper: `dictInsert` never produces an empty space. -/
lemma dictInsert_ne_nil (space : List ParamSpec) (ps : ParamSpec) :
    dictInsert space ps ≠ [] := by
  unfold dictInsert
  by_cases h : space.any (fun q => q.name == ps.name)
  · cases space with
    | nil => simp at h
    | cons a l => simp [h]
  · simp [h]

/-- Helper: once the accumulating space is nonempty, applying the remaining
overrides keeps it nonempty. -/
lemma buildSearchSpace_foldl_ne_nil (parseList : List Char → List ℚ) :
    ∀ (overrides : List (List Char × Option (List Char))) (base : List ParamSpec),
      base ≠ [] →
      overrides.foldl
        (fun space nv =>
          if strTruthy nv.2 then
            dictInsert space ⟨nv.1, parseList (nv.2.getD []), PType.float⟩
          else space) base ≠ [] := by
  intro overrides
  induction overrides with
  | nil => intro base h; simpa using h
  | cons ov rest ih =>
      intro base h
      simp only [List.foldl_cons]
      by_cases ht : strTruthy ov.2
      · simp only [ht, if_true]
        exact ih _ (dictInsert_ne_nil _ _)
      · simp only [ht, if_false]
        exact ih _ h

/-- C8: the search space resolved by `main` is empty exactly when the
declarative file contributed nothing (absent or empty) and every inline
override is falsy; in that case `main` exits with failure status 1 at the
configuration check, before the search (and hence any trial) runs — the
outcome does not depend on the evaluation oracle or the generator. -/
theorem main_empty_space_exits (yamlSpace : Option (List ParamSpec))
    (overrides : List (List Char × Option (List Char)))
    (parseList : List Char → List ℚ) (mode : SearchMode) (maxTests : Option ℤ)
    (dryRun minimize : Bool) (oracle : Params → List Char)
    (parse : List Char → Option ℚ) (matcher : List Char → Option ReMatch)
    (rng : Nat → Nat) :
    (buildSearchSpace yamlSpace overrides parseList = [] ↔
      ((yamlSpace = none ∨ yamlSpace = some []) ∧
        ∀ ov ∈ overrides, strTruthy ov.2 = false))
    ∧ (buildSearchSpace yamlSpace overrides parseList = [] →
        mainModel yamlSpace overrides parseList mode maxTests dryRun minimize
          oracle parse matcher rng = MainOutcome.exitConfigError 1) := by
  constructor
  · unfold buildSearchSpace
    constructor
    · intro h
      constructor
      · by_contra hbase
        push_neg at hbase
        have hb : (match yamlSpace with | some l => l | none => []) ≠ [] := by
          cases yamlSpace with
          | none => exact absurd rfl hbase.1
          | some l =>
              cases l with
              | nil => exact absurd rfl hbase.2
              | cons a t => simp
        exact buildSearchSpace_foldl_ne_nil parseList overrides _ hb h
      · intro ov hov
        by_contra htr
        rw [Bool.not_eq_false] at htr
        obtain ⟨pre, post, rfl⟩ := List.append_of_mem hov
        rw [List.foldl_append, List.foldl_cons, if_pos htr] at h
        exact buildSearchSpace_foldl_ne_nil parseList post _ (dictInsert_ne_nil _ _) h
    · rintro ⟨hbase, hfalsy⟩
      have hb : (match yamlSpace with | some l => l | none => []) = [] := by
        rcases hbase with h | h <;> simp [h]
      rw [hb]
      clear hb hbase
      induction overrides with
      | nil => rfl
      | cons ov rest ih =>
          simp only [List.foldl_cons, hfalsy ov (by simp), if_false,
            Bool.false_eq_true]
          exact ih (fun o ho => hfalsy o (by simp [ho]))
  · intro h
    unfold mainModel
    simp [h]

/-- Witness for C8: no declarative file and a single falsy (absent) override
resolve to an empty space, and `main` exits with configuration error 1. -/
theorem main_empty_space_exits_witness :
    buildSearchSpace none [(['a'], none)] (fun _ => []) = []
    ∧ mainModel none [(['a'], none)] (fun _ => []) SearchMode.grid none false true
        (fun _ => []) (fun _ => none) (fun _ => none) (fun _ => 0) =
        MainOutcome.exitConfigError 1 := by
  have h : buildSearchSpace none [(['a'], none)] (fun _ => []) = [] := rfl
  exact ⟨h, (main_empty_space_exits none [(['a'], none)] (fun _ => [])
    SearchMode.grid none false true (fun _ => []) (fun _ => none) (fun _ => none)
    (fun _ => 0)).2 h⟩

/-- Helper: once the loop condition fails, the loop returns the accumulated
values immediately, for any fuel. -/
lemma fromRangeAux_stop (t : PType) (endV step : ℚ) (fuel : Nat) (current : ℚ)
    (acc : List ℚ) (h : ¬ current ≤ endV + rangeEps) :
    fromRangeAux t endV step fuel current acc = some acc.reverse := by
  cases fuel <;> simp [fromRangeAux, h]

/-- Helper: if exactly `n` loop iterations satisfy the condition, any fuel
`≥ n` terminates with the `n` rounded values appended in order. -/
lemma fromRangeAux_run (t : PType) (endV step : ℚ) :
    ∀ (n fuel : Nat) (current : ℚ) (acc : List ℚ), n ≤ fuel →
      (∀ k : Nat, k < n → current + k * step ≤ endV + rangeEps) →
      ¬ (current + n * step ≤ endV + rangeEps) →
      fromRangeAux t endV step fuel current acc =
        some (acc.reverse ++
          (List.range n).map (fun k : Nat => roundValue t (current + (k : ℚ) * step))) := by
  intro n
  induction n with
  | zero =>
      intro fuel current acc _ _ hstop
      rw [fromRangeAux_stop t endV step fuel current acc (by simpa using hstop)]
      simp
  | succ n ih =>
      intro fuel current acc hfuel hlt hstop
      obtain ⟨f, rfl⟩ : ∃ f, fuel = f + 1 := ⟨fuel - 1, by omega⟩
      have hcur : current ≤ endV + rangeEps := by
        have := hlt 0 (Nat.succ_pos n)
        simpa using this
      simp only [fromRangeAux, if_pos hcur]
      rw [ih f (current + step) (roundValue t current :: acc) (by omega)
        (fun k hk => by
          have := hlt (k + 1) (by omega)
          push_cast at this ⊢
          linarith)
        (by
          intro hc
          apply hstop
          push_cast at hc ⊢
          linarith)]
      congr 1
      rw [List.reverse_cons, List.append_assoc]
      congr 1
      rw [List.range_succ_eq_map, List.map_cons, List.map_map]
      simp only [Nat.cast_zero, zero_mul, add_zero, List.singleton_append]
      congr 1
      apply List.map_congr_left
      intro k _
      simp only [Function.comp_apply]
      congr 1
      push_cast
      ring

/-- Helper: for a positive step there is a cutoff `n` such that the loop
condition holds exactly for the first `n` multiples. -/
lemma stepCount_exists (start endV step : ℚ) (hstep : 0 < step) :
    ∃ n : Nat, ∀ k : Nat, (start + k * step ≤ endV + rangeEps ↔ k < n) := by
  by_cases hs : start ≤ endV + rangeEps
  · refine ⟨(⌊(endV + rangeEps - start) / step⌋).toNat + 1, fun k => ?_⟩
    have hfl : (0 : ℤ) ≤ ⌊(endV + rangeEps - start) / step⌋ :=
      Int.floor_nonneg.mpr (div_nonneg (by linarith) hstep.le)
    constructor
    · intro h
      have h1 : (k : ℚ) * step ≤ endV + rangeEps - start := by linarith
      have h2 : (k : ℚ) ≤ (endV + rangeEps - start) / step :=
        (le_div_iff₀ hstep).mpr h1
      have h3 : (k : ℤ) ≤ ⌊(endV + rangeEps - start) / step⌋ :=
        Int.le_floor.mpr (by exact_mod_cast h2)
      omega
    · intro hk
      have h3 : (k : ℤ) ≤ ⌊(endV + rangeEps - start) / step⌋ := by omega
      have h2 : (k : ℚ) ≤ (endV + rangeEps - start) / step := by
        exact_mod_cast Int.le_floor.mp h3
      have h1 := (le_div_iff₀ hstep).mp h2
      linarith
  · refine ⟨0, fun k => ?_⟩
    simp only [Nat.not_lt_zero, iff_false]
    intro h
    apply hs
    have hk : (0 : ℚ) ≤ (k : ℚ) * step := by positivity
    linarith

set_option maxHeartbeats 1000000 in
/-- C5: with a positive step, `from_range` terminates and produces exactly
the values `start, start+step, start+2*step, …` for as long as they are
`≤ end + 1e-9`, each rounded by kind (`round(·, 6)` for Float,
`int(round(·))` for Int, see `roundValue`); in particular
`from_range(start=1, end=5, step=1, 'int')` yields `[1,2,3,4,5]`. -/
theorem from_range_positive_step (t : PType) (name : List Char)
    (start endV step : ℚ) (hstep : 0 < step) :
    (∃ n : Nat, (∀ k : Nat, (start + k * step ≤ endV + rangeEps ↔ k < n)) ∧
      ∀ fuel, n ≤ fuel →
        fromRange name start endV step t fuel =
          some ⟨name, (List.range n).map (fun k : Nat => roundValue t (start + (k : ℚ) * step)), t⟩)
    ∧ fromRange name 1 5 1 PType.int 5 = some ⟨name, [1, 2, 3, 4, 5], PType.int⟩ := by
  constructor
  · obtain ⟨n, hn⟩ := stepCount_exists start endV step hstep
    refine ⟨n, hn, fun fuel hfuel => ?_⟩
    unfold fromRange
    rw [fromRangeAux_run t endV step n fuel start [] hfuel
      (fun k hk => (hn k).mpr hk)
      (fun hc => by have := (hn n).mp hc; omega)]
    simp
  · unfold fromRange
    rw [fromRangeAux_run PType.int 5 1 5 5 1 [] le_rfl
      (fun k hk => by
        have hk4 : (k : ℚ) ≤ 4 := by exact_mod_cast Nat.lt_succ_iff.mp hk
        rw [rangeEps]
        linarith)
      (by rw [rangeEps]; norm_num)]
    have hr : List.range 5 = [0, 1, 2, 3, 4] := rfl
    rw [hr]
    simp only [List.map_cons, List.map_nil, List.reverse_nil, List.nil_append,
      Option.map_some']
    norm_num [roundValue, pyRoundInt]

/-- Witness for C5: the concrete instance `start = 1, end = 5, step = 1`,
kind Int, with the positive-step hypothesis discharged. -/
theorem from_range_positive_step_witness :
    (0 : ℚ) < 1 ∧
    ((∃ n : Nat, (∀ k : Nat, ((1 : ℚ) + k * 1 ≤ 5 + rangeEps ↔ k < n)) ∧
      ∀ fuel, n ≤ fuel →
        fromRange ['x'] 1 5 1 PType.int fuel =
          some ⟨['x'], (List.range n).map
            (fun k : Nat => roundValue PType.int (1 + (k : ℚ) * 1)), PType.int⟩)
    ∧ fromRange ['x'] 1 5 1 PType.int 5 =
        some ⟨['x'], [1, 2, 3, 4, 5], PType.int⟩) :=
  ⟨by norm_num, from_range_positive_step PType.int ['x'] 1 5 1 (by norm_num)⟩

/-- The total number of grid combinations, `∏ ki`. -/
def prodSize {α : Type} (ls : List (List α)) : Nat := (ls.map List.length).prod

/-- Decoding a flat trial index into one combination in nested-loop order:
index `i` picks element `i / prodSize rest` of the first (slowest-varying)
domain and recurses on `i % prodSize rest`, so the last domain varies
fastest. -/
def mixedRadix {α : Type} (d : α) : List (List α) → Nat → List α
  | [], _ => []
  | vs :: rest, i => vs.getD (i / prodSize rest) d :: mixedRadix d rest (i % prodSize rest)

/-- Helper: `cartProd` has exactly `∏ ki` elements. -/
lemma cartProd_length {α : Type} : ∀ ls : List (List α),
    (cartProd ls).length = prodSize ls := by
  intro ls
  induction ls with
  | nil => rfl
  | cons vs rest ih =>
      simp [cartProd, prodSize, List.length_flatMap, Function.comp_def, ih,
        List.sum_replicate, smul_eq_mul, List.map_const']

/-- Helper: every combination has one entry per declared domain. -/
lemma cartProd_mem_length {α : Type} : ∀ (ls : List (List α)) (c : List α),
    c ∈ cartProd ls → c.length = ls.length := by
  intro ls
  induction ls with
  | nil => intro c hc; simp [cartProd] at hc; simp [hc]
  | cons vs rest ih =>
      intro c hc
      simp only [cartProd, List.mem_flatMap, List.mem_map] at hc
      obtain ⟨v, _, c', hc', rfl⟩ := hc
      simp [ih c' hc']

/-- Helper: with duplicate-free domains, all combinations are distinct. -/
lemma cartProd_nodup {α : Type} : ∀ ls : List (List α),
    (∀ l ∈ ls, l.Nodup) → (cartProd ls).Nodup := by
  intro ls
  induction ls with
  | nil => intro _; simp [cartProd]
  | cons vs rest ih =>
      intro h
      have hvs : vs.Nodup := h vs (by simp)
      have hrest : (cartProd rest).Nodup := ih (fun l hl => h l (by simp [hl]))
      rw [cartProd, List.nodup_flatMap]
      refine ⟨fun v _ => hrest.map List.cons_injective, ?_⟩
      refine hvs.imp ?_
      intro a b hab c hca hcb
      simp only [List.mem_map] at hca hcb
      obtain ⟨c₁, _, rfl⟩ := hca
      obtain ⟨c₂, _, heq⟩ := hcb
      injection heq with h1 _
      exact hab h1.symm

/-- Helper: indexing into a `flatMap` whose blocks all have length `T`. -/
lemma flatMap_getElem?_uniform {α β : Type} (f : α → List β) (T : Nat) (da : α)
    (hT : ∀ a, (f a).length = T) :
    ∀ (l : List α) (i : Nat), i < l.length * T →
      (l.flatMap f)[i]? = (f (l.getD (i / T) da))[i % T]? := by
  intro l
  induction l with
  | nil => intro i hi; simp at hi
  | cons a l ih =>
      intro i hi
      have hT0 : 0 < T := by
        rcases Nat.eq_zero_or_pos T with h0 | h0
        · rw [h0, Nat.mul_zero] at hi; exact absurd hi (Nat.not_lt_zero i)
        · exact h0
      rw [List.flatMap_cons]
      by_cases hiT : i < T
      · rw [List.getElem?_append_left (by rw [hT a]; exact hiT),
          Nat.div_eq_of_lt hiT, Nat.mod_eq_of_lt hiT, List.getD_cons_zero]
      · obtain ⟨j, rfl⟩ : ∃ j, i = j + T := ⟨i - T, by omega⟩
        rw [List.getElem?_append_right (by rw [hT a]; omega), hT a,
          Nat.add_sub_cancel, Nat.add_div_right j hT0, Nat.add_mod_right j T,
          List.getD_cons_succ]
        apply ih
        have hexp : (a :: l).length * T = l.length * T + T := by
          simp [Nat.succ_mul]
        rw [hexp] at hi
        omega

/-- Helper: the `i`-th combination of `cartProd` is the mixed-radix decoding
of `i`, first domain slowest-varying. -/
lemma cartProd_getElem? {α : Type} (d : α) :
    ∀ (ls : List (List α)) (i : Nat), i < prodSize ls →
      (cartProd ls)[i]? = some (mixedRadix d ls i) := by
  intro ls
  induction ls with
  | nil =>
      intro i hi
      have h1 : i = 0 := by simpa [prodSize] using hi
      subst h1
      rfl
  | cons vs rest ih =>
      intro i hi
      have hsize : i < vs.length * prodSize rest := by
        simpa [prodSize] using hi
      have hpos : 0 < prodSize rest := by
        rcases Nat.eq_zero_or_pos (prodSize rest) with h0 | h0
        · rw [h0, Nat.mul_zero] at hsize; exact absurd hsize (Nat.not_lt_zero i)
        · exact h0
      rw [cartProd,
        flatMap_getElem?_uniform (fun v => (cartProd rest).map (fun c => v :: c))
          (prodSize rest) d (fun v => by simp [cartProd_length]) vs i hsize,
        List.getElem?_map, ih _ (Nat.mod_lt _ hpos)]
      rfl

/-- Helper: zipping a fixed name list is injective on value lists of the
same length. -/
lemma zip_right_injOn {α β : Type} : ∀ (names : List α) (c₁ c₂ : List β),
    c₁.length = names.length → c₂.length = names.length →
    names.zip c₁ = names.zip c₂ → c₁ = c₂ := by
  intro names
  induction names with
  | nil =>
      intro c₁ c₂ h₁ h₂ _
      rw [List.length_eq_zero.mp h₁, List.length_eq_zero.mp h₂]
  | cons n ns ih =>
      intro c₁ c₂ h₁ h₂ hz
      cases c₁ with
      | nil => simp at h₁
      | cons x₁ t₁ =>
          cases c₂ with
          | nil => simp at h₂
          | cons x₂ t₂ =>
              simp only [List.zip_cons_cons, List.cons.injEq, Prod.mk.injEq] at hz
              have ht := ih t₁ t₂ (by simpa using h₁) (by simpa using h₂) hz.2
              rw [hz.1.2, ht]

/-- C1: uninterrupted grid search executes one trial per combination, in the
order of `itertools.product`: the trial list pairs the declared names with
the combinations; without a limit there are exactly `∏ ki` combinations, all
distinct (for duplicate-free domains); the `i`-th combination is the
mixed-radix decoding of `i` with the first declared parameter varying
slowest and the last fastest; and a positive limit `N` truncates to exactly
the first `N` combinations of that order. -/
theorem grid_search_product_order (space : List ParamSpec)
    (oracle : Params → List Char) (parse : List Char → Option ℚ)
    (matcher : List Char → Option ReMatch)
    (hnd : ∀ ps ∈ space, ps.values.Nodup) :
    ((gridSearch space none false oracle parse matcher).map Prod.fst =
      gridTrials space none)
    ∧ (gridTrials space none).length = prodSize (space.map (fun ps => ps.values))
    ∧ (gridTrials space none).Nodup
    ∧ (∀ i, i < prodSize (space.map (fun ps => ps.values)) →
        (gridCombos space none)[i]? =
          some (mixedRadix 0 (space.map (fun ps => ps.values)) i))
    ∧ (∀ N : ℤ, 0 < N →
        gridTrials space (some N) = (gridTrials space none).take N.toNat) := by
  have hcombos : gridCombos space none = cartProd (space.map (fun ps => ps.values)) := by
    simp [gridCombos, intTruthy]
  refine ⟨?_, ?_, ?_, ?_, ?_⟩
  · rw [gridSearch, if_neg (by simp), List.map_map]
    have hfst : Prod.fst ∘ evalTrial oracle parse matcher = id := by
      funext params
      simp only [Function.comp_apply, evalTrial, id_eq]
      by_cases h : hasSentinel (oracle params) <;> simp [h]
    rw [hfst, List.map_id]
  · rw [gridTrials, List.length_map, hcombos, cartProd_length]
  · rw [gridTrials, hcombos]
    have hcnd : (cartProd (space.map (fun ps => ps.values))).Nodup :=
      cartProd_nodup _ (by
        intro l hl
        simp only [List.mem_map] at hl
        obtain ⟨ps, hps, rfl⟩ := hl
        exact hnd ps hps)
    refine List.Nodup.map_on ?_ hcnd
    intro c₁ h₁ c₂ h₂ heq
    have hl₁ := cartProd_mem_length _ _ h₁
    have hl₂ := cartProd_mem_length _ _ h₂
    simp only [List.length_map] at hl₁ hl₂
    exact zip_right_injOn (space.map (fun ps => ps.name)) c₁ c₂
      (by simpa using hl₁) (by simpa using hl₂) heq
  · intro i hi
    rw [hcombos]
    exact cartProd_getElem? 0 _ i hi
  · intro N hN
    have hne : (N : ℤ) ≠ 0 := hN.ne'
    simp [gridTrials, gridCombos, intTruthy, hne, hN, List.map_take]

/-- Witness for C1: the spec's own example — domains `[1,2]` and
`[10,20,30]` — with the duplicate-free-domain hypothesis discharged. -/
theorem grid_search_product_order_witness :
    (∀ ps ∈ [ParamSpec.mk ['a'] [1, 2] PType.float,
        ParamSpec.mk ['b'] [10, 20, 30] PType.float], ps.values.Nodup)
    ∧ (((gridSearch [ParamSpec.mk ['a'] [1, 2] PType.float,
          ParamSpec.mk ['b'] [10, 20, 30] PType.float] none false
          (fun _ => []) (fun _ => none) (fun _ => none)).map Prod.fst =
        gridTrials [ParamSpec.mk ['a'] [1, 2] PType.float,
          ParamSpec.mk ['b'] [10, 20, 30] PType.float] none)
      ∧ (gridTrials [ParamSpec.mk ['a'] [1, 2] PType.float,
          ParamSpec.mk ['b'] [10, 20, 30] PType.float] none).length =
          prodSize ([ParamSpec.mk ['a'] [1, 2] PType.float,
            ParamSpec.mk ['b'] [10, 20, 30] PType.float].map (fun ps => ps.values))
      ∧ (gridTrials [ParamSpec.mk ['a'] [1, 2] PType.float,
          ParamSpec.mk ['b'] [10, 20, 30] PType.float] none).Nodup
      ∧ (∀ i, i < prodSize ([ParamSpec.mk ['a'] [1, 2] PType.float,
            ParamSpec.mk ['b'] [10, 20, 30] PType.float].map (fun ps => ps.values)) →
          (gridCombos [ParamSpec.mk ['a'] [1, 2] PType.float,
            ParamSpec.mk ['b'] [10, 20, 30] PType.float] none)[i]? =
            some (mixedRadix 0 ([ParamSpec.mk ['a'] [1, 2] PType.float,
              ParamSpec.mk ['b'] [10, 20, 30] PType.float].map (fun ps => ps.values)) i))
      ∧ (∀ N : ℤ, 0 < N →
          gridTrials [ParamSpec.mk ['a'] [1, 2] PType.float,
            ParamSpec.mk ['b'] [10, 20, 30] PType.float] (some N) =
            (gridTrials [ParamSpec.mk ['a'] [1, 2] PType.float,
              ParamSpec.mk ['b'] [10, 20, 30] PType.float] none).take N.toNat)) := by
  have hnd : ∀ ps ∈ [ParamSpec.mk ['a'] [1, 2] PType.float,
      ParamSpec.mk ['b'] [10, 20, 30] PType.float], ps.values.Nodup := by
    intro ps hps
    simp only [List.mem_cons, List.not_mem_nil, or_false] at hps
    rcases hps with rfl | rfl <;> norm_num
  exact ⟨hnd, grid_search_product_order _ (fun _ => []) (fun _ => none)
    (fun _ => none) hnd⟩

/-- Helper: inserting adds one element. -/
lemma insertStable_length {α : Type} (lt : α → α → Bool) (x : α) :
    ∀ l : List α, (insertStable lt x l).length = l.length + 1 := by
  intro l
  induction l with
  | nil => rfl
  | cons y ys ih => by_cases h : lt x y <;> simp [insertStable, h, ih]

/-- Helper: `insertStable` produces a permutation of consing. -/
lemma insertStable_perm {α : Type} (lt : α → α → Bool) (x : α) :
    ∀ l : List α, (insertStable lt x l).Perm (x :: l) := by
  intro l
  induction l with
  | nil => exact List.Perm.refl _
  | cons y ys ih =>
      by_cases h : lt x y
      · simp [insertStable, h]
      · simp only [insertStable, h, Bool.false_eq_true, if_false]
        exact (ih.cons y).trans (List.Perm.swap x y ys)

/-- Helper: the stable sort permutes its input. -/
lemma pySorted_perm {α : Type} (lt : α → α → Bool) (l : List α) :
    (pySorted lt l).Perm l := by
  suffices h : ∀ (l acc : List α),
      (l.foldl (fun acc x => insertStable lt x acc) acc).Perm (acc ++ l) by
    simpa using h l []
  intro l
  induction l with
  | nil => intro acc; simp
  | cons x xs ih =>
      intro acc
      rw [List.foldl_cons]
      refine (ih (insertStable lt x acc)).trans ?_
      refine (List.Perm.append_right xs (insertStable_perm lt x acc)).trans ?_
      simpa using List.perm_middle.symm

/-- Helper: head of the stable sort = fold of first-strict-improvement. -/
lemma pySorted_cons_headD {α : Type} (lt : α → α → Bool) (v : α) (vs : List α)
    (d : α) :
    (pySorted lt (v :: vs)).headD d =
      vs.foldl (fun a x => if lt x a then x else a) v := by
  rw [pySorted, List.foldl_cons]
  suffices h : ∀ (l acc : List α), acc ≠ [] →
      (l.foldl (fun acc x => insertStable lt x acc) acc).headD d =
        l.foldl (fun a x => if lt x a then x else a) (acc.headD d) by
    simpa using h vs (insertStable lt v []) (by simp [insertStable])
  intro l
  induction l with
  | nil => intro acc _; rfl
  | cons x xs ih =>
      intro acc hacc
      rw [List.foldl_cons, List.foldl_cons,
        ih (insertStable lt x acc) (by
          intro h0
          have hlen := insertStable_length lt x acc
          rw [h0] at hlen
          simp at hlen)]
      congr 1
      cases acc with
      | nil => exact absurd rfl hacc
      | cons y ys => by_cases h : lt x y <;> simp [insertStable, h]

/-- Helper: the comparator `pySorted` receives from `sorted(key=...)` in
ascending mode, rewritten from its `decide` form to the propositional form. -/
lemma pick_decide_eq {α : Type} (key : α → ℚ) :
    (fun (a x : α) => if decide (key x < key a) then x else a) =
      (fun (a x : α) => if key x < key a then x else a) := by
  funext a x
  simp only [decide_eq_true_eq]

/-- Helper: the first-strict-improvement fold over a key computes the first
element attaining the minimal key. -/
lemma foldl_pick_min {α : Type} (key : α → ℚ) :
    ∀ (l : List α) (v : α),
      ((l.foldl (fun a x => if key x < key a then x else a) v) = v ∨
        (l.foldl (fun a x => if key x < key a then x else a) v) ∈ l)
      ∧ key (l.foldl (fun a x => if key x < key a then x else a) v) ≤ key v
      ∧ (∀ x ∈ l, key (l.foldl (fun a x => if key x < key a then x else a) v) ≤ key x)
      ∧ List.find?
          (fun x => key x == key (l.foldl (fun a x => if key x < key a then x else a) v))
          (v :: l) = some (l.foldl (fun a x => if key x < key a then x else a) v) := by
  intro l
  induction l with
  | nil =>
      intro v
      refine ⟨Or.inl rfl, le_refl _, by simp, ?_⟩
      simp [List.find?]
  | cons x l ih =>
      intro v
      rw [List.foldl_cons]
      by_cases hlt : key x < key v
      · rw [if_pos hlt]
        obtain ⟨hmem, hlev, hall, hfind⟩ := ih x
        set b := l.foldl (fun a x => if key x < key a then x else a) x with hb
        have hbv : key b < key v := lt_of_le_of_lt hlev hlt
        refine ⟨Or.inr (by rcases hmem with h | h <;> simp [h]), hbv.le, ?_, ?_⟩
        · intro y hy
          rcases List.mem_cons.mp hy with rfl | hy2
          · exact hlev
          · exact hall y hy2
        · rw [List.find?_cons_of_neg _ (by simp [hbv.ne'])]
          exact hfind
      · rw [if_neg hlt]
        obtain ⟨hmem, hlev, hall, hfind⟩ := ih v
        set b := l.foldl (fun a x => if key x < key a then x else a) v with hb
        have hvx : key v ≤ key x := not_lt.mp hlt
        refine ⟨?_, hlev, ?_, ?_⟩
        · rcases hmem with h | h
          · exact Or.inl h
          · exact Or.inr (by simp [h])
        · intro y hy
          rcases List.mem_cons.mp hy with rfl | hy2
          · exact hlev.trans hvx
          · exact hall y hy2
        · by_cases hveq : key v = key b
          · have h1 : b = v := by
              rw [List.find?_cons_of_pos _ (by simp [hveq])] at hfind
              exact ((Option.some.injEq _ _).mp hfind).symm
            rw [List.find?_cons_of_pos _ (by simp [hveq]), h1]
          · have hxb : key x ≠ key b := by
              intro hxeq
              exact hveq (le_antisymm (hxeq ▸ hvx) hlev)
            rw [List.find?_cons_of_neg _ (by simp [hveq]),
              List.find?_cons_of_neg _ (by simp [hxb])]
            rw [List.find?_cons_of_neg _ (by simp [hveq])] at hfind
            exact hfind

/-- Helper: the head of the key-ascending stable sort of a nonempty list is
a member attaining the minimal key, and it is the first member with its key. -/
lemma pySorted_key_head {α : Type} (key : α → ℚ) (v : α) (vs : List α) (d : α) :
    ((pySorted (fun a b => decide (key a < key b)) (v :: vs)).headD d ∈ v :: vs)
    ∧ (∀ x ∈ v :: vs,
        key ((pySorted (fun a b => decide (key a < key b)) (v :: vs)).headD d) ≤ key x)
    ∧ List.find?
        (fun x => key x ==
          key ((pySorted (fun a b => decide (key a < key b)) (v :: vs)).headD d))
        (v :: vs) =
        some ((pySorted (fun a b => decide (key a < key b)) (v :: vs)).headD d) := by
  have hhead : (pySorted (fun a b => decide (key a < key b)) (v :: vs)).headD d =
      vs.foldl (fun a x => if key x < key a then x else a) v := by
    rw [pySorted_cons_headD]
    congr 1
    exact pick_decide_eq key
  obtain ⟨hmem, hlev, hall, hfind⟩ := foldl_pick_min key vs v
  rw [hhead]
  refine ⟨?_, ?_, hfind⟩
  · rcases hmem with h | h
    · simp [h]
    · simp [h]
  · intro x hx
    rcases List.mem_cons.mp hx with rfl | hx2
    · exact hlev
    · exact hall x hx2

/-- C4: the reporter considers only trials with a present metric; with none
it reports "no valid results" (and returns normally — the model is total);
otherwise it reports a best trial that attains the minimal metric when
minimizing (the default) resp. the maximal metric when maximizing, and among
the trials attaining it, the earliest in execution order (`find?` returns
the first match in the filtered, execution-ordered list). -/
theorem report_results_best (results : List (Params × Option ℚ)) (minimize : Bool) :
    (validOf results = [] ↔ ∀ t ∈ results, t.2 = none)
    ∧ (validOf results = [] → reportResults results minimize = Report.noValid)
    ∧ (validOf results ≠ [] →
        ∃ best top stats,
          reportResults results minimize = Report.summary best top stats
          ∧ best ∈ validOf results
          ∧ (minimize = true → (∀ t ∈ validOf results, best.2 ≤ t.2)
              ∧ (validOf results).find? (fun t => t.2 == best.2) = some best)
          ∧ (minimize = false → (∀ t ∈ validOf results, t.2 ≤ best.2)
              ∧ (validOf results).find? (fun t => t.2 == best.2) = some best)) := by
  refine ⟨?_, ?_, ?_⟩
  · simp [validOf, List.filterMap_eq_nil_iff, Option.map_eq_none']
  · intro h
    simp only [reportResults, h]
  · intro h
    obtain ⟨v, vs, hvv⟩ := List.exists_cons_of_ne_nil h
    rw [hvv]
    simp only [reportResults, hvv]
    refine ⟨_, _, _, rfl, ?_, ?_, ?_⟩
    · cases minimize with
      | true =>
          exact (pySorted_key_head (fun t : Params × ℚ => t.2) v vs ([], 0)).1
      | false =>
          have hfn : (fun (a b : Params × ℚ) => keyLT false a.2 b.2) =
              (fun (a b : Params × ℚ) =>
                decide ((fun t : Params × ℚ => -t.2) a < (fun t : Params × ℚ => -t.2) b)) := by
            funext a b
            simp [keyLT]
          rw [hfn]
          exact (pySorted_key_head (fun t : Params × ℚ => -t.2) v vs ([], 0)).1
    · intro hmin
      subst hmin
      refine ⟨(pySorted_key_head (fun t : Params × ℚ => t.2) v vs ([], 0)).2.1, ?_⟩
      exact (pySorted_key_head (fun t : Params × ℚ => t.2) v vs ([], 0)).2.2
    · intro hmax
      subst hmax
      have hfn : (fun (a b : Params × ℚ) => keyLT false a.2 b.2) =
          (fun (a b : Params × ℚ) =>
            decide ((fun t : Params × ℚ => -t.2) a < (fun t : Params × ℚ => -t.2) b)) := by
        funext a b
        simp [keyLT]
      rw [hfn]
      obtain ⟨_, hall, hfind⟩ := pySorted_key_head (fun t : Params × ℚ => -t.2) v vs ([], 0)
      constructor
      · intro t ht
        have := hall t ht
        simpa using this
      · have hpred : (fun t : Params × ℚ =>
            (fun t : Params × ℚ => -t.2) t ==
              (fun t : Params × ℚ => -t.2)
                ((pySorted (fun a b =>
                  decide ((fun t : Params × ℚ => -t.2) a < (fun t : Params × ℚ => -t.2) b))
                  (v :: vs)).headD ([], 0))) =
            (fun t : Params × ℚ => t.2 ==
              ((pySorted (fun a b =>
                decide ((fun t : Params × ℚ => -t.2) a < (fun t : Params × ℚ => -t.2) b))
                (v :: vs)).headD ([], 0)).2) := by
          funext t
          rw [Bool.eq_iff_iff]
          simp
        rw [hpred] at hfind
        exact hfind

/-- Witness for C4: the spec's ranking example — trials
`[(p1, 5.0), (p2, 2.0), (p3, absent)]` with minimize — has valid trials, and
the reported best is `p2` with metric 2; an all-absent log reports
"no valid results". -/
theorem report_results_best_witness :
    (validOf [([(['p', '1'], 0)], some 5), ([(['p', '2'], 0)], some 2),
        ([(['p', '3'], 0)], none)] ≠ []
      ∧ (∃ best top stats,
          reportResults [([(['p', '1'], 0)], some 5), ([(['p', '2'], 0)], some 2),
            ([(['p', '3'], 0)], none)] true = Report.summary best top stats
          ∧ best ∈ validOf [([(['p', '1'], 0)], some 5), ([(['p', '2'], 0)], some 2),
              ([(['p', '3'], 0)], none)]
          ∧ (true = true → (∀ t ∈ validOf [([(['p', '1'], 0)], some 5),
                ([(['p', '2'], 0)], some 2), ([(['p', '3'], 0)], none)], best.2 ≤ t.2)
              ∧ (validOf [([(['p', '1'], 0)], some 5), ([(['p', '2'], 0)], some 2),
                  ([(['p', '3'], 0)], none)]).find? (fun t => t.2 == best.2) = some best)
          ∧ (true = false → (∀ t ∈ validOf [([(['p', '1'], 0)], some 5),
                ([(['p', '2'], 0)], some 2), ([(['p', '3'], 0)], none)], t.2 ≤ best.2)
              ∧ (validOf [([(['p', '1'], 0)], some 5), ([(['p', '2'], 0)], some 2),
                  ([(['p', '3'], 0)], none)]).find? (fun t => t.2 == best.2) = some best)))
    ∧ (validOf [(([] : Params), (none : Option ℚ))] = []
      ∧ reportResults [(([] : Params), (none : Option ℚ))] true = Report.noValid) := by
  constructor
  · have hne : validOf [([(['p', '1'], 0)], some 5), ([(['p', '2'], 0)], some 2),
        ([(['p', '3'], 0)], none)] ≠ [] := by simp [validOf]
    exact ⟨hne, (report_results_best [([(['p', '1'], 0)], some 5),
      ([(['p', '2'], 0)], some 2), ([(['p', '3'], 0)], none)] true).2.2 hne⟩
  · have hnil : validOf [(([] : Params), (none : Option ℚ))] = [] := by simp [validOf]
    exact ⟨hnil, (report_results_best [(([] : Params), (none : Option ℚ))] true).2.1 hnil⟩

/-- The statistics block of a report, if any. -/
def statsOf : Report → Option Stats
  | Report.noValid => none
  | Report.summary _ _ s => some s

/-- The best trial of a report, if any. -/
def bestOf : Report → Option (Params × ℚ)
  | Report.noValid => none
  | Report.summary b _ _ => some b

/-- The metrics of the valid trials, in execution order
(`metrics = [m for _, m in valid_results]`, line 364). -/
def metricsOf (results : List (Params × Option ℚ)) : List ℚ :=
  (validOf results).map (fun t => t.2)

/-- The statistical median, following the spec's word "median": the middle
element of the ascending sort for odd length, the mean of the two middle
elements for even length. Comparison definition for the refinement claim
about the reported median; it is not part of the code model. -/
def specMedian (l : List ℚ) : ℚ :=
  let s := pySorted (fun a b => decide (a < b)) l
  if l.length % 2 = 1 then s.getD (l.length / 2) 0
  else (s.getD (l.length / 2 - 1) 0 + s.getD (l.length / 2) 0) / 2

/-- Helper: `min`-fold computes a member that bounds every element below. -/
lemma foldl_min_spec : ∀ (xs : List ℚ) (x : ℚ),
    (xs.foldl min x = x ∨ xs.foldl min x ∈ xs) ∧ xs.foldl min x ≤ x ∧
      ∀ y ∈ xs, xs.foldl min x ≤ y := by
  intro xs
  induction xs with
  | nil => intro x; exact ⟨Or.inl rfl, le_refl _, by simp⟩
  | cons y ys ih =>
      intro x
      rw [List.foldl_cons]
      obtain ⟨hmem, hle, hall⟩ := ih (min x y)
      refine ⟨?_, hle.trans (min_le_left x y), ?_⟩
      · rcases hmem with h | h
        · rcases min_choice x y with hc | hc
          · exact Or.inl (h.trans hc)
          · exact Or.inr (by simp [h.trans hc])
        · exact Or.inr (by simp [h])
      · intro z hz
        rcases List.mem_cons.mp hz with rfl | hz2
        · exact hle.trans (min_le_right x z)
        · exact hall z hz2

/-- Helper: `max`-fold computes a member that bounds every element above. -/
lemma foldl_max_spec : ∀ (xs : List ℚ) (x : ℚ),
    (xs.foldl max x = x ∨ xs.foldl max x ∈ xs) ∧ x ≤ xs.foldl max x ∧
      ∀ y ∈ xs, y ≤ xs.foldl max x := by
  intro xs
  induction xs with
  | nil => intro x; exact ⟨Or.inl rfl, le_refl _, by simp⟩
  | cons y ys ih =>
      intro x
      rw [List.foldl_cons]
      obtain ⟨hmem, hle, hall⟩ := ih (max x y)
      refine ⟨?_, (le_max_left x y).trans hle, ?_⟩
      · rcases hmem with h | h
        · rcases max_choice x y with hc | hc
          · exact Or.inl (h.trans hc)
          · exact Or.inr (by simp [h.trans hc])
        · exact Or.inr (by simp [h])
      · intro z hz
        rcases List.mem_cons.mp hz with rfl | hz2
        · exact (le_max_right x z).trans hle
        · exact hall z hz2

/-- Helper: inserting into a key-sorted list keeps it key-sorted. -/
lemma insertStable_sorted {α : Type} (key : α → ℚ) (x : α) :
    ∀ l : List α, List.Sorted (fun a b => key a ≤ key b) l →
      List.Sorted (fun a b => key a ≤ key b)
        (insertStable (fun a b => decide (key a < key b)) x l) := by
  intro l
  induction l with
  | nil => intro _; simp [insertStable]
  | cons y ys ih =>
      intro hs
      rw [List.sorted_cons] at hs
      by_cases h : key x < key y
      · have hcond : (fun a b => decide (key a < key b)) x y = true := by simp [h]
        simp only [insertStable, hcond, if_true]
        rw [List.sorted_cons]
        refine ⟨?_, by rw [List.sorted_cons]; exact hs⟩
        intro b hb
        rcases List.mem_cons.mp hb with rfl | hb2
        · exact h.le
        · exact h.le.trans (hs.1 b hb2)
      · have hcond : (fun a b => decide (key a < key b)) x y = false := by simp [h]
        simp only [insertStable, hcond, Bool.false_eq_true, if_false]
        rw [List.sorted_cons]
        refine ⟨?_, ih hs.2⟩
        intro b hb
        rcases List.mem_cons.mp ((insertStable_perm _ x ys).mem_iff.mp hb) with rfl | hb2
        · exact not_lt.mp h
        · exact hs.1 b hb2

/-- Helper: the stable sort is key-ascending sorted. -/
lemma pySorted_sorted {α : Type} (key : α → ℚ) (l : List α) :
    List.Sorted (fun a b => key a ≤ key b)
      (pySorted (fun a b => decide (key a < key b)) l) := by
  suffices h : ∀ (l acc : List α), List.Sorted (fun a b => key a ≤ key b) acc →
      List.Sorted (fun a b => key a ≤ key b)
        (l.foldl (fun acc x => insertStable (fun a b => decide (key a < key b)) x acc) acc) by
    exact h l [] (by simp)
  intro l
  induction l with
  | nil => intro acc hacc; exact hacc
  | cons x xs ih =>
      intro acc hacc
      rw [List.foldl_cons]
      exact ih _ (insertStable_sorted key x acc hacc)

/-- C6 counterexample: the claim says the reporter's fourth summary statistic
is the median for every non-empty list of valid metrics, including even
lengths. For valid metrics `[1, 2]` the code computes
`sorted(metrics)[len(metrics)//2] = sorted([1,2])[1] = 2`, whereas the
median of `{1, 2}` is `3/2`. -/
theorem report_results_median_even_counterexample :
    (statsOf (reportResults [([(['p'], 1)], some 1), ([(['q'], 2)], some 2)] true)).map
        Stats.statMedian = some 2
    ∧ specMedian [1, 2] = 3 / 2
    ∧ ¬ ((statsOf (reportResults [([(['p'], 1)], some 1), ([(['q'], 2)], some 2)] true)).map
        Stats.statMedian = some (specMedian [1, 2])) := by
  refine ⟨?_, ?_, ?_⟩
  · norm_num [reportResults, validOf, List.filterMap_cons, pySorted, insertStable,
      keyLT, statsOf]
  · norm_num [specMedian, pySorted, insertStable]
  · norm_num [reportResults, validOf, List.filterMap_cons, pySorted, insertStable,
      keyLT, statsOf, specMedian]

/-- C6 (amended): with at least one valid trial, the reported statistics are
the minimum, the maximum and the arithmetic mean of the valid metrics, and —
as the fourth statistic — the element at index `⌊n/2⌋` of the ascending sort
of the metrics (the upper middle element), which coincides with the
statistical median exactly when the metric count `n` is odd. -/
theorem report_results_stats (results : List (Params × Option ℚ)) (minimize : Bool)
    (hne : validOf results ≠ []) :
    ∃ best top stats,
      reportResults results minimize = Report.summary best top stats
      ∧ (stats.statMin ∈ metricsOf results ∧ ∀ m ∈ metricsOf results, stats.statMin ≤ m)
      ∧ (stats.statMax ∈ metricsOf results ∧ ∀ m ∈ metricsOf results, m ≤ stats.statMax)
      ∧ stats.statMean = (metricsOf results).sum / (metricsOf results).length
      ∧ (∃ s : List ℚ, s.Perm (metricsOf results)
          ∧ List.Sorted (fun a b : ℚ => a ≤ b) s
          ∧ stats.statMedian = s.getD ((metricsOf results).length / 2) 0)
      ∧ ((metricsOf results).length % 2 = 1 →
          stats.statMedian = specMedian (metricsOf results)) := by
  obtain ⟨v, vs, hvv⟩ := List.exists_cons_of_ne_nil hne
  have hmet : metricsOf results = (v :: vs).map (fun t => t.2) := by
    rw [metricsOf, hvv]
  simp only [reportResults, hvv]
  refine ⟨_, _, _, rfl, ?_, ?_, ?_, ?_, ?_⟩
  · rw [hmet]
    obtain ⟨hmem, hle, hall⟩ := foldl_min_spec (vs.map (fun t => t.2)) v.2
    constructor
    · show (pyMin ((v :: vs).map (fun t => t.2))).getD 0 ∈ (v :: vs).map (fun t => t.2)
      rw [List.map_cons, pyMin]
      rcases hmem with h | h
      · simp [h]
      · simp [Option.getD, h]
    · intro m hm
      show (pyMin ((v :: vs).map (fun t => t.2))).getD 0 ≤ m
      rw [List.map_cons, pyMin] at *
      rcases List.mem_cons.mp hm with rfl | hm2
      · simpa using hle
      · simpa using hall m hm2
  · rw [hmet]
    obtain ⟨hmem, hle, hall⟩ := foldl_max_spec (vs.map (fun t => t.2)) v.2
    constructor
    · show (pyMax ((v :: vs).map (fun t => t.2))).getD 0 ∈ (v :: vs).map (fun t => t.2)
      rw [List.map_cons, pyMax]
      rcases hmem with h | h
      · simp [h]
      · simp [Option.getD, h]
    · intro m hm
      show m ≤ (pyMax ((v :: vs).map (fun t => t.2))).getD 0
      rw [List.map_cons, pyMax] at *
      rcases List.mem_cons.mp hm with rfl | hm2
      · simpa using hle
      · simpa using hall m hm2
  · rw [hmet]
  · refine ⟨pySorted (fun a b => decide (a < b)) ((v :: vs).map (fun t => t.2)),
      ?_, ?_, ?_⟩
    · rw [hmet]
      exact pySorted_perm _ _
    · exact pySorted_sorted (fun q : ℚ => q) ((v :: vs).map (fun t => t.2))
    · rw [hmet]
  · intro hodd
    rw [hmet] at hodd
    show ((pySorted (fun a b => decide (a < b)) ((v :: vs).map (fun t => t.2))).getD
        (((v :: vs).map (fun t => t.2)).length / 2) 0) =
      specMedian (metricsOf results)
    rw [hmet, specMedian]
    simp only [hodd, if_pos]

/-- Witness for C6 (amended): three valid trials with metrics `[3, 1, 2]`
(odd count), nonemptiness discharged concretely. -/
theorem report_results_stats_witness :
    validOf [([(['a'], 0)], some 3), ([(['b'], 0)], some 1), ([(['c'], 0)], some 2)] ≠ []
    ∧ (∃ best top stats,
        reportResults [([(['a'], 0)], some 3), ([(['b'], 0)], some 1),
          ([(['c'], 0)], some 2)] true = Report.summary best top stats
        ∧ (stats.statMin ∈ metricsOf [([(['a'], 0)], some 3), ([(['b'], 0)], some 1),
              ([(['c'], 0)], some 2)]
            ∧ ∀ m ∈ metricsOf [([(['a'], 0)], some 3), ([(['b'], 0)], some 1),
              ([(['c'], 0)], some 2)], stats.statMin ≤ m)
        ∧ (stats.statMax ∈ metricsOf [([(['a'], 0)], some 3), ([(['b'], 0)], some 1),
              ([(['c'], 0)], some 2)]
            ∧ ∀ m ∈ metricsOf [([(['a'], 0)], some 3), ([(['b'], 0)], some 1),
              ([(['c'], 0)], some 2)], m ≤ stats.statMax)
        ∧ stats.statMean = (metricsOf [([(['a'], 0)], some 3), ([(['b'], 0)], some 1),
              ([(['c'], 0)], some 2)]).sum /
            (metricsOf [([(['a'], 0)], some 3), ([(['b'], 0)], some 1),
              ([(['c'], 0)], some 2)]).length
        ∧ (∃ s : List ℚ, s.Perm (metricsOf [([(['a'], 0)], some 3), ([(['b'], 0)], some 1),
              ([(['c'], 0)], some 2)])
            ∧ List.Sorted (fun a b : ℚ => a ≤ b) s
            ∧ stats.statMedian = s.getD ((metricsOf [([(['a'], 0)], some 3),
                ([(['b'], 0)], some 1), ([(['c'], 0)], some 2)]).length / 2) 0)
        ∧ ((metricsOf [([(['a'], 0)], some 3), ([(['b'], 0)], some 1),
              ([(['c'], 0)], some 2)]).length % 2 = 1 →
            stats.statMedian = specMedian (metricsOf [([(['a'], 0)], some 3),
              ([(['b'], 0)], some 1), ([(['c'], 0)], some 2)]))) := by
  have hne : validOf [([(['a'], 0)], some 3), ([(['b'], 0)], some 1),
      ([(['c'], 0)], some 2)] ≠ [] := by simp [validOf]
  exact ⟨hne, report_results_stats [([(['a'], 0)], some 3), ([(['b'], 0)], some 1),
    ([(['c'], 0)], some 2)] true hne⟩

/-- Helper: a trial's recorded parameter assignment is the sampled one,
whatever the evaluation outcome. -/
lemma evalTrial_fst (oracle : Params → List Char) (parse : List Char → Option ℚ)
    (matcher : List Char → Option ReMatch) (params : Params) :
    (evalTrial oracle parse matcher params).1 = params := by
  unfold evalTrial
  by_cases h : hasSentinel (oracle params) <;> simp [h]

/-- C7 counterexample: `num_samples = args.max_tests or 100` treats a
configured limit of `0` as falsy, so with `--max-tests 0` random search runs
100 trials, not the configured 0. -/
theorem random_search_zero_limit_counterexample :
    numSamplesOf (some 0) = 100
    ∧ (randomSearch [⟨['a'], [1], PType.float⟩] (numSamplesOf (some 0)) false
        (fun _ => []) (fun _ => none) (fun _ => none) (fun _ => 0)).length = 100
    ∧ (100 : ℤ) ≠ 0 := by
  refine ⟨rfl, ?_, by decide⟩
  simp [randomSearch, numSamplesOf]

/-- Helper: over any block of `L * m` consecutive candidate draws, each
residue below `L` occurs exactly `m` times. -/
lemma count_mod_range (L idx : Nat) (hidx : idx < L) :
    ∀ m : Nat, ((Finset.range (L * m)).filter (fun r => r % L = idx)).card = m := by
  intro m
  induction m with
  | zero => simp
  | succ m ih =>
      have hLm : L * (m + 1) = L * m + L := by ring
      rw [hLm, Finset.range_eq_Ico,
        ← Finset.Ico_union_Ico_eq_Ico (Nat.zero_le (L * m)) (by omega : L * m ≤ L * m + L),
        Finset.filter_union,
        Finset.card_union_of_disjoint
          (Finset.disjoint_filter_filter (Finset.Ico_disjoint_Ico_consecutive 0 (L * m) (L * m + L))),
        ← Finset.range_eq_Ico, ih]
      have hsing : (Finset.Ico (L * m) (L * m + L)).filter (fun r => r % L = idx) =
          {L * m + idx} := by
        ext r
        simp only [Finset.mem_filter, Finset.mem_Ico, Finset.mem_singleton]
        constructor
        · rintro ⟨⟨hlo, hhi⟩, hmod⟩
          obtain ⟨s, rfl⟩ : ∃ s, r = L * m + s := ⟨r - L * m, by omega⟩
          have hs : s < L := by omega
          rw [Nat.mul_add_mod, Nat.mod_eq_of_lt hs] at hmod
          rw [hmod]
        · rintro rfl
          refine ⟨⟨by omega, by omega⟩, ?_⟩
          rw [Nat.mul_add_mod, Nat.mod_eq_of_lt hidx]
      rw [hsing, Finset.card_singleton]

set_option maxHeartbeats 1000000 in
/-- C7 (amended): random search's sample count is the configured limit when
it is given and nonzero, and the fallback 100 when the limit is absent or
zero (`args.max_tests or 100`); uninterrupted, it executes exactly
`max(S, 0)` trials; each trial's value for each parameter comes from that
parameter's declared domain; every assignment of domain values to the trials
is realized by some generator stream, with fresh draws per trial and no
deduplication (so repeats are possible); and the index `random.choice`
derives from a generator draw is equidistributed over the domain positions. -/
theorem random_search_sampling (space : List ParamSpec) (mt : Option ℤ)
    (oracle : Params → List Char) (parse : List Char → Option ℚ)
    (matcher : List Char → Option ReMatch) :
    (mt = none → numSamplesOf mt = 100)
    ∧ (mt = some 0 → numSamplesOf mt = 100)
    ∧ (∀ n : ℤ, n ≠ 0 → mt = some n → numSamplesOf mt = n)
    ∧ (∀ rng : Nat → Nat,
        (randomSearch space (numSamplesOf mt) false oracle parse matcher rng).length =
          (numSamplesOf mt).toNat)
    ∧ (∀ rng : Nat → Nat,
        ∀ t ∈ randomSearch space (numSamplesOf mt) false oracle parse matcher rng,
          t.1.length = space.length ∧
          ∀ j (hj : j < space.length),
            ∃ val : ℚ, t.1[j]? = some ((space.get ⟨j, hj⟩).name, val) ∧
              ((space.get ⟨j, hj⟩).values ≠ [] → val ∈ (space.get ⟨j, hj⟩).values))
    ∧ (∀ choice : Nat → Nat → Nat,
        (∀ i j (hj : j < space.length), choice i j < (space.get ⟨j, hj⟩).values.length) →
        ∃ rng : Nat → Nat, ∀ i, i < (numSamplesOf mt).toNat →
          ∃ t, (randomSearch space (numSamplesOf mt) false oracle parse
              matcher rng)[i]? = some t ∧
            ∀ j (hj : j < space.length),
              t.1[j]? = some ((space.get ⟨j, hj⟩).name,
                (space.get ⟨j, hj⟩).values.getD (choice i j) 0))
    ∧ (∀ (vs : List ℚ) (idx m : Nat), idx < vs.length →
        ((Finset.range (vs.length * m)).filter (fun r => r % vs.length = idx)).card = m
        ∧ ∀ r : Nat, r % vs.length = idx → randomChoice vs r = vs.getD idx 0) := by
  refine ⟨?_, ?_, ?_, ?_, ?_, ?_, ?_⟩
  · rintro rfl; rfl
  · rintro rfl; rfl
  · rintro n hn rfl; simp [numSamplesOf, hn]
  · intro rng
    simp [randomSearch]
  · intro rng t ht
    simp only [randomSearch, Bool.false_eq_true, if_false, List.mem_map,
      List.mem_range] at ht
    obtain ⟨i, _, rfl⟩ := ht
    rw [evalTrial_fst]
    constructor
    · simp [randomTrial]
    · intro j hj
      rw [randomTrial, List.getElem?_map, List.getElem?_enum,
        List.getElem?_eq_getElem hj]
      refine ⟨randomChoice (space.get ⟨j, hj⟩).values
        (rng (i * space.length + j)), rfl, ?_⟩
      intro hne
      have hpos : 0 < (space.get ⟨j, hj⟩).values.length := List.length_pos.mpr hne
      rw [randomChoice, List.getD_eq_getElem _ _ (Nat.mod_lt _ hpos)]
      exact List.getElem_mem _
  · intro choice hch
    refine ⟨fun k => choice (k / space.length) (k % space.length), ?_⟩
    intro i hi
    refine ⟨evalTrial oracle parse matcher
      (randomTrial space (fun k => choice (k / space.length) (k % space.length))
        (i * space.length)), ?_, ?_⟩
    · simp only [randomSearch, Bool.false_eq_true, if_false, List.getElem?_map,
        List.getElem?_range hi]
      rfl
    · intro j hj
      have hL : 0 < space.length := lt_of_le_of_lt (Nat.zero_le j) hj
      rw [evalTrial_fst, randomTrial, List.getElem?_map, List.getElem?_enum,
        List.getElem?_eq_getElem hj]
      have hdiv : (i * space.length + j) / space.length = i := by
        rw [Nat.add_comm, Nat.mul_comm, Nat.add_mul_div_left j i hL,
          Nat.div_eq_of_lt hj, Nat.zero_add]
      have hmod : (i * space.length + j) % space.length = j := by
        rw [Nat.add_comm, Nat.add_mul_mod_self_right, Nat.mod_eq_of_lt hj]
      simp only [Option.map_some', hdiv, hmod, randomChoice, List.get_eq_getElem]
      rw [Nat.mod_eq_of_lt (by simpa [List.get_eq_getElem] using hch i j hj)]
  · intro vs idx m hidx
    refine ⟨count_mod_range vs.length idx hidx m, ?_⟩
    intro r hr
    rw [randomChoice, hr]

/-- Witness for C7 (amended): the concrete space `{a: [1, 2]}` with limit 2,
a constant oracle and parser; the theorem instantiates to it directly. -/
theorem random_search_sampling_witness :
    ((some 2 : Option ℤ) = none → numSamplesOf (some 2) = 100)
    ∧ ((some 2 : Option ℤ) = some 0 → numSamplesOf (some 2) = 100)
    ∧ (∀ n : ℤ, n ≠ 0 → (some 2 : Option ℤ) = some n → numSamplesOf (some 2) = n)
    ∧ (∀ rng : Nat → Nat,
        (randomSearch [⟨['a'], [1, 2], PType.float⟩] (numSamplesOf (some 2)) false
          (fun _ => []) (fun _ => none) (fun _ => none) rng).length =
          (numSamplesOf (some 2)).toNat)
    ∧ (∀ rng : Nat → Nat,
        ∀ t ∈ randomSearch [⟨['a'], [1, 2], PType.float⟩] (numSamplesOf (some 2)) false
          (fun _ => []) (fun _ => none) (fun _ => none) rng,
          t.1.length = [ParamSpec.mk ['a'] [1, 2] PType.float].length ∧
          ∀ j (hj : j < [ParamSpec.mk ['a'] [1, 2] PType.float].length),
            ∃ val : ℚ, t.1[j]? =
              some (([ParamSpec.mk ['a'] [1, 2] PType.float].get ⟨j, hj⟩).name, val) ∧
              (([ParamSpec.mk ['a'] [1, 2] PType.float].get ⟨j, hj⟩).values ≠ [] →
                val ∈ ([ParamSpec.mk ['a'] [1, 2] PType.float].get ⟨j, hj⟩).values))
    ∧ (∀ choice : Nat → Nat → Nat,
        (∀ i j (hj : j < [ParamSpec.mk ['a'] [1, 2] PType.float].length),
          choice i j < ([ParamSpec.mk ['a'] [1, 2] PType.float].get ⟨j, hj⟩).values.length) →
        ∃ rng : Nat → Nat, ∀ i, i < (numSamplesOf (some 2)).toNat →
          ∃ t, (randomSearch [⟨['a'], [1, 2], PType.float⟩] (numSamplesOf (some 2)) false
              (fun _ => []) (fun _ => none) (fun _ => none) rng)[i]? = some t ∧
            ∀ j (hj : j < [ParamSpec.mk ['a'] [1, 2] PType.float].length),
              t.1[j]? = some (([ParamSpec.mk ['a'] [1, 2] PType.float].get ⟨j, hj⟩).name,
                ([ParamSpec.mk ['a'] [1, 2] PType.float].get ⟨j, hj⟩).values.getD
                  (choice i j) 0))
    ∧ (∀ (vs : List ℚ) (idx m : Nat), idx < vs.length →
        ((Finset.range (vs.length * m)).filter (fun r => r % vs.length = idx)).card = m
        ∧ ∀ r : Nat, r % vs.length = idx → randomChoice vs r = vs.getD idx 0) :=
  random_search_sampling [⟨['a'], [1, 2], PType.float⟩] (some 2)
    (fun _ => []) (fun _ => none) (fun _ => none)

end Tune
